import Mathlib

/-!
Verification development for the source-rewrite engine of
`scripts/fix-logger-calls.py` and `scripts/migrate-params.py`.

The Python scripts are shallowly embedded over `List Char`.  Each concrete
regular expression used by the scripts is embedded as a hand-specialised
deterministic matcher; a comment at each matcher records the original
pattern and why maximal munch coincides with Python's leftmost greedy
backtracking semantics for that particular pattern.
-/

/-! ## Python string primitives -/

/-- Characters stripped by Python `str.strip()` (ASCII whitespace). -/
def isPySpace (c : Char) : Bool :=
  c = ' ' || c = '\t' || c = '\n' || c = '\r' || c = '\x0b' || c = '\x0c'

/-- Python `str.strip()`: drop leading and trailing whitespace. -/
def pyStrip (l : List Char) : List Char :=
  ((l.dropWhile isPySpace).reverse.dropWhile isPySpace).reverse

/-- Does `l` start with the literal `pre`?  Mirrors Python `str.startswith`. -/
def startsWithL : List Char → List Char → Bool
  | _, [] => true
  | [], _ :: _ => false
  | c :: cs, a :: bs => if c = a then startsWithL cs bs else false

/-- Python substring test `needle in haystack`. -/
def containsL : List Char → List Char → Bool
  | [], n => startsWithL [] n
  | c :: t, n => startsWithL (c :: t) n || containsL t n

/-- Consume the literal `lit` from the front of `l`, returning the rest. -/
def dropLit : List Char → List Char → Option (List Char)
  | [], l => some l
  | _ :: _, [] => none
  | a :: bs, c :: cs => if c = a then dropLit bs cs else none

/-- Consume one expected character. -/
def expectChar (a : Char) : List Char → Option (List Char)
  | [] => none
  | c :: cs => if c = a then some cs else none

/-- Maximal munch for `\s*` (safe whenever the following piece starts with a
non-whitespace character, which holds at every use site below). -/
def dropWs (l : List Char) : List Char := l.dropWhile isPySpace

/-- Maximal munch for `\s+`. -/
def dropWs1 (l : List Char) : Option (List Char) :=
  match l with
  | [] => none
  | c :: cs => if isPySpace c then some (dropWs cs) else none

/-! ## Tokenizer of `fix_logger_call` (fix-logger-calls.py lines 16-47)

State of the character scan: paren depth, brace depth, and the quote
character of the string literal currently open (if any).  Python uses a
plain `int` for the depths, which may go negative, hence `Int`. -/

structure PState where
  paren : Int
  brace : Int
  str : Option Char
deriving DecidableEq

def pInit : PState := ⟨0, 0, none⟩

/-- The three quote kinds recognised by the scan: `"`, `'`, backtick. -/
def quoteChars : List Char := "\"'`".data

/-- One step of the depth/string bookkeeping, transcribing the `if/elif`
chain of the Python loop (minus the comma split, handled in `tstep`). -/
def pstep (p : PState) (c : Char) : PState :=
  if quoteChars.contains c ∧ p.str = none then { p with str := some c }
  else if p.str = some c then { p with str := none }
  else if c = '(' ∧ p.str = none then { p with paren := p.paren + 1 }
  else if c = ')' ∧ p.str = none then { p with paren := p.paren - 1 }
  else if c = '\x7b' ∧ p.str = none then { p with brace := p.brace + 1 }
  else if c = '\x7d' ∧ p.str = none then { p with brace := p.brace - 1 }
  else p

/-- Full scan state: fragments emitted so far, the in-flight fragment, and
the depth/string state. -/
structure TState where
  parts : List (List Char)
  cur : List Char
  p : PState

def tInit : TState := ⟨[], [], pInit⟩

/-- A comma splits only outside strings at zero paren and brace depth
(the `elif char == ','` branch); every other character is appended to the
in-flight fragment with the bookkeeping of `pstep`. -/
def tstep (s : TState) (c : Char) : TState :=
  if c = ',' ∧ s.p.str = none ∧ s.p.paren = 0 ∧ s.p.brace = 0 then
    ⟨s.parts ++ [pyStrip s.cur], [], s.p⟩
  else ⟨s.parts, s.cur ++ [c], pstep s.p c⟩

def scanT (s : TState) : List Char → TState
  | [] => s
  | c :: cs => scanT (tstep s c) cs

def scanP (p : PState) : List Char → PState
  | [] => p
  | c :: cs => scanP (pstep p c) cs

/-- The Tokenizer: split an argument string on top-level commas; the
trailing in-flight fragment is kept only if nonempty after stripping
(`if current_arg.strip()`). -/
def splitArgs (args : List Char) : List (List Char) :=
  let s := scanT tInit args
  if pyStrip s.cur ≠ [] then s.parts ++ [pyStrip s.cur] else s.parts

/-- Count of top-level commas: commas seen outside any string at zero
paren and brace depth, tracked by the same state machine. -/
def topCommasP (p : PState) : List Char → Nat
  | [] => 0
  | c :: cs =>
    (if c = ',' ∧ p.str = none ∧ p.paren = 0 ∧ p.brace = 0 then 1 else 0) +
      topCommasP (pstep p c) cs

def topCommas (args : List Char) : Nat := topCommasP pInit args

/-- A well-formed argument string: the scan ends outside any string at
zero paren and brace depth. -/
def wellFormedArgs (args : List Char) : Bool :=
  scanP pInit args = pInit

/-! ## The Logging Recipe rewrite (fix-logger-calls.py lines 11-78) -/

/-- Identifier grammar of the script: `^[a-zA-Z_][a-zA-Z0-9_]*$`. -/
def isIdentTail (c : Char) : Bool :=
  ('a' ≤ c ∧ c ≤ 'z') || ('A' ≤ c ∧ c ≤ 'Z') || ('0' ≤ c ∧ c ≤ '9') || c = '_'

def isIdentHead (c : Char) : Bool :=
  ('a' ≤ c ∧ c ≤ 'z') || ('A' ≤ c ∧ c ≤ 'Z') || c = '_'

def isIdentifier : List Char → Bool
  | [] => false
  | c :: cs => isIdentHead c && cs.all isIdentTail

/-- Decimal key `argN` followed by `: ` (from `f'arg{i + 1}: {arg}'`). -/
def argKey (n : Nat) : List Char :=
  "arg".data ++ Nat.toDigits 10 n ++ ": ".data

/-- The metadata-entry loop (`for i, arg in enumerate(rest_args)`), with the
Python index `i` threaded explicitly; the emitted key is `arg(i+1)`. -/
def metaEntriesGo (i : Nat) : List (List Char) → List (List Char)
  | [] => []
  | a :: rest =>
    (if isIdentifier (pyStrip a) then pyStrip a else argKey (i + 1) ++ pyStrip a)
      :: metaEntriesGo (i + 1) rest

def joinComma : List (List Char) → List Char
  | [] => []
  | [a] => a
  | a :: b :: rest => a ++ ", ".data ++ joinComma (b :: rest)

/-- Does the stripped second argument look like an object literal
(`startswith('{') and endswith('}')`)? -/
def isObjLiteral (l : List Char) : Bool :=
  (l.head? = some '\x7b') && (l.getLast? = some '\x7d')

/-- The original call text `log.<level>(<args>)` (match `group(0)`). -/
def origCall (level args : List Char) : List Char :=
  "log.".data ++ level ++ "(".data ++ args ++ ")".data

/-- `fix_logger_call`: rewrite one matched call given its level name and the
raw argument text. -/
def fixLoggerCall (level args : List Char) : List Char :=
  let arg_parts := splitArgs args
  if arg_parts.length ≤ 1 then origCall level args
  else if arg_parts.length = 2 ∧ isObjLiteral (pyStrip (arg_parts.getD 1 [])) then
    origCall level args
  else
    let message := arg_parts.headD []
    let rest := arg_parts.tail
    let metadata := "\x7b ".data ++ joinComma (metaEntriesGo 0 rest) ++ " \x7d".data
    "log.".data ++ level ++ "(".data ++ message ++ ", ".data ++ metadata ++ ")".data

/-! ## The Call-Site Matcher and full-text substitution

The pattern `log\.(error|warn|info|debug)\(([^)]+(?:\([^)]*\))?[^)]*)\)`
matches exactly `log.` + level + `(` + a maximal nonempty run of
non-`)` characters + `)`: the optional nested-paren group can only be
reached by backtracking after `[^)]+`'s maximal munch failed to be
followed by `)`, in which case no `)` exists further right and the
optional group (which requires a `)`) cannot match either. -/

def levelNames : List (List Char) :=
  ["error".data, "warn".data, "info".data, "debug".data]

def tryLevel (lvl : List Char) (r : List Char) :
    Option (List Char × List Char × List Char) := do
  let r1 ← dropLit lvl r
  let r2 ← expectChar '(' r1
  let run := r2.takeWhile (· ≠ ')')
  match r2.dropWhile (· ≠ ')') with
  | ')' :: tail => if run = [] then none else some (lvl, run, tail)
  | _ => none

def tryLogMatch (l : List Char) : Option (List Char × List Char × List Char) := do
  let r ← dropLit "log.".data l
  (tryLevel "error".data r) <|> (tryLevel "warn".data r) <|>
    (tryLevel "info".data r) <|> (tryLevel "debug".data r)

/-- `re.sub` with the call pattern and `fix_logger_call` as replacement:
leftmost, non-overlapping, continuing after each match.  Fuel-based; every
match consumes at least eight characters, so `l.length` fuel suffices. -/
def logSubGo : Nat → List Char → List Char
  | 0, l => l
  | _ + 1, [] => []
  | fuel + 1, c :: cs =>
    match tryLogMatch (c :: cs) with
    | some (lvl, args, rest) => fixLoggerCall lvl args ++ logSubGo fuel rest
    | none => c :: logSubGo fuel cs

def logSub (l : List Char) : List Char := logSubGo l.length l

/-- String-level wrapper for the Logging Recipe full-text transform. -/
def logTransform (s : String) : String := ⟨logSub s.data⟩

/-! ## migrate-params.py: classifier primitives (lines 11-26) -/

/-- Python `\w` (ASCII model, as used by all inputs considered here). -/
def isWordChar (c : Char) : Bool := isIdentTail c

/-- `detect_param_name` (lines 11-15). -/
def detectParamName (t : List Char) : List Char :=
  if containsL t "[trackingNumber]".data || containsL t "trackingNumber".data then
    "trackingNumber".data
  else "id".data

/-- `already_migrated` (lines 17-19). -/
def alreadyMigratedB (t : List Char) : Bool :=
  containsL t "use(params)".data || containsL t "const resolvedParams = use(params)".data

/-- Search: does the matcher accept some suffix of the text?  Mirrors
`re.search` truthiness for the deterministic matchers below. -/
def searchAny (m : List Char → Bool) : List Char → Bool
  | [] => m []
  | c :: cs => m (c :: cs) || searchAny m cs

/-- Matcher for `params:\s*\{` at the current position. -/
def matchProp1 (l : List Char) : Bool :=
  match dropLit "params:".data l with
  | some r =>
    match dropWs r with
    | c :: _ => c = '\x7b'
    | [] => false
  | none => false

/-- Matcher for `}\s*{\s*params\s*}:` at the current position. -/
def matchProp2 (l : List Char) : Option Unit := do
  let r ← expectChar '\x7d' l
  let r ← expectChar '\x7b' (dropWs r)
  let r ← dropLit "params".data (dropWs r)
  let _ ← dropLit "\x7d:".data (dropWs r)
  pure ()

/-- Tail of `function.*\{\s*params\s*}:` after the `.*`: a brace followed
by `\s*params\s*}:`. -/
def braceParamsTail (l : List Char) : Option Unit := do
  let r ← expectChar '\x7b' l
  let r ← dropLit "params".data (dropWs r)
  let _ ← dropLit "\x7d:".data (dropWs r)
  pure ()

/-- Scan the rest of the current line (`.*` does not cross newlines) for
the brace tail. -/
def prop3Line : List Char → Bool
  | [] => false
  | c :: cs => if c = '\n' then false else (braceParamsTail (c :: cs)).isSome || prop3Line cs

/-- Matcher for `function.*\{\s*params\s*}:` at the current position. -/
def matchProp3 (l : List Char) : Bool :=
  match dropLit "function".data l with
  | some r => prop3Line r
  | none => false

/-- `uses_params_prop` (lines 21-26). -/
def usesParamsProp (t : List Char) : Bool :=
  searchAny matchProp1 t || searchAny (fun l => (matchProp2 l).isSome) t ||
    searchAny matchProp3 t

/-! ## Step 1: React `use` import injection (lines 44-55) -/

/-- The single-quote character, extracted from `quoteChars`. -/
def squote : Char := quoteChars.getD 1 ' '

/-- The quote class `["\']` of the import patterns. -/
def isQuote2 (c : Char) : Bool := c = '"' || c = squote

/-- `'from "react"' in content or "from 'react'" in content`. -/
def reactMarker (t : List Char) : Bool :=
  containsL t "from \"react\"".data ||
    containsL t ("from ".data ++ [squote] ++ "react".data ++ [squote])

/-- Word-bounded occurrence of `use` inside the bracket content of the
React import, the `[^}]*\buse\b[^}]*` part of the pattern; the
character before the content is `{`, a non-word character, so the
initial previous-is-word flag is false. -/
def hasWordUseGo (prevWord : Bool) : List Char → Bool
  | [] => false
  | c :: cs =>
    (!prevWord && startsWithL (c :: cs) "use".data &&
      (match (c :: cs).drop 3 with
       | [] => true
       | d :: _ => !isWordChar d)) ||
    hasWordUseGo (isWordChar c) cs

/-- Matcher for `import\s*\{[^}]*\buse\b[^}]*\}\s*from\s*["\']react["\']`
at the current position. -/
def matchImportUse (l : List Char) : Option Unit := do
  let r ← dropLit "import".data l
  let r ← expectChar '\x7b' (dropWs r)
  let content := r.takeWhile (· ≠ '\x7d')
  let r ← expectChar '\x7d' (r.dropWhile (· ≠ '\x7d'))
  if hasWordUseGo false content then
    match dropLit "from".data (dropWs r) with
    | none => none
    | some r2 =>
      match dropWs r2 with
      | [] => none
      | q1 :: r3 =>
        if isQuote2 q1 then
          match dropLit "react".data r3 with
          | none => none
          | some (q2 :: _) => if isQuote2 q2 then some () else none
          | some [] => none
        else none
  else none

def hasUseImport (t : List Char) : Bool :=
  searchAny (fun l => (matchImportUse l).isSome) t

/-- Parsed pieces of one `(import\s*\{)([^}]*)(}\s*from\s*["\']react["\'])`
match. -/
structure ImportMatch where
  ws1 : List Char
  content : List Char
  ws2 : List Char
  ws3 : List Char
  q1 : Char
  q2 : Char
deriving DecidableEq

def importMatchAt (l : List Char) : Option (ImportMatch × List Char) := do
  let r ← dropLit "import".data l
  let ws1 := r.takeWhile isPySpace
  let r ← expectChar '\x7b' (r.dropWhile isPySpace)
  let content := r.takeWhile (· ≠ '\x7d')
  let r ← expectChar '\x7d' (r.dropWhile (· ≠ '\x7d'))
  let ws2 := r.takeWhile isPySpace
  match dropLit "from".data (r.dropWhile isPySpace) with
  | none => none
  | some r2 =>
    let ws3 := r2.takeWhile isPySpace
    match r2.dropWhile isPySpace with
    | [] => none
    | q1 :: r3 =>
      if isQuote2 q1 then
        match dropLit "react".data r3 with
        | none => none
        | some [] => none
        | some (q2 :: rest) =>
          if isQuote2 q2 then some (⟨ws1, content, ws2, ws3, q1, q2⟩, rest) else none
      else none

/-- The replacement `\1 use, \2\3`. -/
def injectedImport (m : ImportMatch) : List Char :=
  "import".data ++ m.ws1 ++ ['\x7b'] ++ " use, ".data ++ m.content ++ ['\x7d'] ++
    m.ws2 ++ "from".data ++ m.ws3 ++ [m.q1] ++ "react".data ++ [m.q2]

/-- The matched text itself (groups 1-3 concatenated). -/
def matchedImport (m : ImportMatch) : List Char :=
  "import".data ++ m.ws1 ++ ['\x7b'] ++ m.content ++ ['\x7d'] ++
    m.ws2 ++ "from".data ++ m.ws3 ++ [m.q1] ++ "react".data ++ [m.q2]

/-- `re.sub(..., count=1)`: replace the leftmost import match only. -/
def injectGo : Nat → List Char → List Char
  | 0, l => l
  | _ + 1, [] => []
  | fuel + 1, c :: cs =>
    match importMatchAt (c :: cs) with
    | some (m, rest) => injectedImport m ++ rest
    | none => c :: injectGo fuel cs

def injectSub (l : List Char) : List Char := injectGo l.length l

/-- Step 1 of `migrate_file` (lines 44-55). -/
def step1Text (t : List Char) : List Char :=
  if reactMarker t then (if hasUseImport t then t else injectSub t) else t

/-! ## Hook-branch substitutions (migrate-params.py lines 94-184) -/

/-- Generic `re.sub(pattern, repl, text)` for a deterministic matcher that
consumes at least one character on success: leftmost, non-overlapping. -/
def subAllGo (m : List Char → Option (List Char)) (repl : List Char) :
    Nat → List Char → List Char
  | 0, l => l
  | _ + 1, [] => []
  | fuel + 1, c :: cs =>
    match m (c :: cs) with
    | some rest => repl ++ subAllGo m repl fuel rest
    | none => c :: subAllGo m repl fuel cs

def subAll (m : List Char → Option (List Char)) (repl : List Char) (l : List Char) :
    List Char :=
  subAllGo m repl l.length l

/-- Matcher for `,?\s*useParams\s*` (line 98).  Taking the optional comma
never loses a match: if the comma is skipped the next character is still
the comma, which neither `\s*` nor `useParams` accepts. -/
def matchUseParamsA (l : List Char) : Option (List Char) := do
  let l1 := match l with
    | c :: cs => if c = ',' then cs else l
    | [] => l
  let r ← dropLit "useParams".data (dropWs l1)
  pure (dropWs r)

/-- Matcher for `useParams\s*,?\s*` (line 99). -/
def matchUseParamsB (l : List Char) : Option (List Char) := do
  let r ← dropLit "useParams".data l
  let r1 := dropWs r
  pure (match r1 with
    | c :: cs => if c = ',' then dropWs cs else r1
    | [] => r1)

/-- Matcher for `\s*\n`: the greedy `\s*` backtracks so that the final
`\n` is the last newline inside the whitespace run; trailing non-newline
whitespace of the run is left unconsumed. -/
def dropWsNewline (l : List Char) : Option (List Char) :=
  let run := l.takeWhile isPySpace
  let rest := l.dropWhile isPySpace
  if run.contains '\n' then
    some ((run.reverse.takeWhile (· ≠ '\n')).reverse ++ rest)
  else none

/-- Matcher for `const\s+params\s*=\s*useParams\(\);\s*\n` (line 104). -/
def matchConstParamsUseLine (l : List Char) : Option (List Char) := do
  let r ← dropLit "const".data l
  let r ← dropWs1 r
  let r ← dropLit "params".data r
  let r ← dropLit "=".data (dropWs r)
  let r ← dropLit "useParams();".data (dropWs r)
  dropWsNewline r

/-- Matcher for `const\s+<v>\s*=\s*params(\?)?\.<field>\s+as\s+string;\s*\n`
(the `old_id_patterns` of lines 110-121). -/
def matchExtractLine (v : List Char) (optQ : Bool) (field : List Char)
    (l : List Char) : Option (List Char) := do
  let r ← dropLit "const".data l
  let r ← dropWs1 r
  let r ← dropLit v r
  let r ← dropLit "=".data (dropWs r)
  let r ← dropLit "params".data (dropWs r)
  let r ← dropLit (if optQ then "?.".data else ".".data) r
  let r ← dropLit field r
  let r ← dropWs1 r
  let r ← dropLit "as".data r
  let r ← dropWs1 r
  let r ← dropLit "string;".data r
  dropWsNewline r

def legacyIdNames : List (List Char) :=
  ["taskId".data, "orderId".data, "paymentId".data, "invoiceId".data,
   "shipmentId".data, "inspectionId".data, "jobId".data, "documentId".data]

def oldIdMatchers (pn : List Char) : List (List Char → Option (List Char)) :=
  matchExtractLine pn false pn :: matchExtractLine pn true pn ::
    legacyIdNames.map (fun v => matchExtractLine v false "id".data)

/-- Matcher for `export\s+default\s+function\s+\w+`; returns the rest
after the maximal `\w+`. -/
def matchFuncDecl (l : List Char) : Option (List Char) := do
  let r ← dropLit "export".data l
  let r ← dropWs1 r
  let r ← dropLit "default".data r
  let r ← dropWs1 r
  let r ← dropLit "function".data r
  let r ← dropWs1 r
  match r with
  | c :: cs => if isWordChar c then some (cs.dropWhile isWordChar) else none
  | [] => none

/-- After a candidate `;` of the lazy `.*?;`: `\s*\n+` followed by the
function declaration.  Since the declaration starts with a non-whitespace
character, the consumed whitespace must be the whole run and must end in
a newline. -/
def afterSemiOk (r : List Char) : Option (List Char) :=
  let run := r.takeWhile isPySpace
  let rest := r.dropWhile isPySpace
  if run.getLast? = some '\n' ∧ (matchFuncDecl rest).isSome then some rest else none

/-- Lazy scan of `.*?;` (with `re.DOTALL`): the first `;` whose tail
satisfies `afterSemiOk` wins.  Returns the suffix at the function
declaration (group 2). -/
def lazySemi : Nat → List Char → Option (List Char)
  | 0, _ => none
  | _ + 1, [] => none
  | fuel + 1, c :: cs =>
    if c = ';' then
      match afterSemiOk cs with
      | some rest => some rest
      | none => lazySemi fuel cs
    else lazySemi fuel cs

/-- The optional group-1 prefix
`export\s+const\s+dynamic\s*=.*?;\s*\n+` followed by group 2. -/
def dynPrefix (l : List Char) : Option (List Char) := do
  let r ← dropLit "export".data l
  let r ← dropWs1 r
  let r ← dropLit "const".data r
  let r ← dropWs1 r
  let r ← dropLit "dynamic".data r
  let r2 ← dropLit "=".data (dropWs r)
  lazySemi r2.length r2

/-- Leftmost search returning the matcher's suffix result. -/
def searchSuffix (m : List Char → Option (List Char)) : List Char → Option (List Char)
  | [] => m []
  | c :: cs =>
    match m (c :: cs) with
    | some r => some r
    | none => searchSuffix m cs

/-- The interface-insertion search of lines 129-133: at each position try
the dynamic prefix first (greedy `(...)?`), else the bare declaration;
the returned suffix starts at `match.start(2)`, the insertion point. -/
def funcMatch1 (l : List Char) : Option (List Char) :=
  searchSuffix
    (fun x =>
      match dynPrefix x with
      | some rest => some rest
      | none => if (matchFuncDecl x).isSome then some x else none)
    l

/-- Insert `ins` immediately before the given structural suffix of `t`. -/
def insertBeforeSuffix (t suffix ins : List Char) : List Char :=
  t.take (t.length - suffix.length) ++ ins ++ suffix

def interfaceCode (pn : List Char) : List Char :=
  "interface PageProps \x7b\n  params: Promise<\x7b ".data ++ pn ++
    ": string \x7d>;\n\x7d\n\n".data

/-- First-only substitution where the replacement is built from the match. -/
def subFirstGo (m : List Char → Option (List Char × List Char)) :
    Nat → List Char → List Char
  | 0, l => l
  | _ + 1, [] => []
  | fuel + 1, c :: cs =>
    match m (c :: cs) with
    | some (rep, rest) => rep ++ rest
    | none => c :: subFirstGo m fuel cs

/-- Matcher for `(export\s+default\s+function\s+\w+)\(\)` returning the
replacement `\1({ params }: PageProps)` and the rest (lines 146-151). -/
def sigMatch (l : List Char) : Option (List Char × List Char) := do
  let r ← matchFuncDecl l
  let r2 ← dropLit "()".data r
  pure (l.take (l.length - r.length) ++ "(\x7b params \x7d: PageProps)".data, r2)

def signatureSub (l : List Char) : List Char := subFirstGo sigMatch l.length l

/-- Matcher for `export\s+default\s+function\s+\w+\([^)]*\)\s*\{`
(line 156); the returned suffix starts at `match.end()`. -/
def funcMatch2At (l : List Char) : Option (List Char) := do
  let r ← matchFuncDecl l
  let r ← expectChar '(' r
  let r2 ← expectChar ')' (r.dropWhile (· ≠ ')'))
  expectChar '\x7b' (dropWs r2)

def funcMatch2 (l : List Char) : Option (List Char) := searchSuffix funcMatch2At l

/-- `content.find('\n', func_end)`: the suffix just after that newline. -/
def afterNewline (r : List Char) : Option (List Char) :=
  match r.dropWhile (· ≠ '\n') with
  | '\n' :: rest => some rest
  | _ => none

def unwrapStmt (pn : List Char) : List Char :=
  "  const \x7b ".data ++ pn ++ " \x7d = use(params);\n".data

/-- Insert the unwrap statement after the first newline following the
function's opening brace (given as a structural suffix); no newline, no
edit. -/
def insertUnwrapAfter (t suffixAtFuncEnd pn : List Char) : List Char :=
  match afterNewline suffixAtFuncEnd with
  | none => t
  | some rest => t.take (t.length - rest.length) ++ unwrapStmt pn ++ rest

/-- Word-boundary substitution `\b<old>\b → <new>`; boundaries are judged
against the original text, as `re.sub` does. -/
def wordSubGo (old new : List Char) : Nat → Bool → List Char → List Char
  | 0, _, l => l
  | _ + 1, _, [] => []
  | fuel + 1, prevWord, c :: cs =>
    if !prevWord && startsWithL (c :: cs) old &&
        (match (c :: cs).drop old.length with
         | [] => true
         | d :: _ => !isWordChar d) then
      new ++
        wordSubGo old new fuel
          (match old.getLast? with
           | some d => isWordChar d
           | none => prevWord)
          ((c :: cs).drop old.length)
    else c :: wordSubGo old new fuel (isWordChar c) cs

def wordSub (old new l : List Char) : List Char := wordSubGo old new l.length false l

def applyIdReplacements (l : List Char) : List Char :=
  legacyIdNames.foldl (fun acc v => wordSub v "id".data acc) l

/-- The hook-pattern branch of `migrate_file` (lines 94-184), as a pure
text transform of the step-1 output. -/
def hookEdits (pn c1 : List Char) : List Char :=
  let h1 := subAll matchUseParamsA [] c1
  let h2 := subAll matchUseParamsB [] h1
  let h3 := subAll matchConstParamsUseLine [] h2
  let h4 := (oldIdMatchers pn).foldl (fun acc m => subAll m [] acc) h3
  let h5 :=
    match funcMatch1 h4 with
    | none => h4
    | some suffix =>
      let g1 := insertBeforeSuffix h4 suffix (interfaceCode pn)
      let g2 := signatureSub g1
      match funcMatch2 g2 with
      | none => g2
      | some fe => insertUnwrapAfter g2 fe pn
  applyIdReplacements h5

/-! ## Prop-branch edits (migrate-params.py lines 57-91) -/

/-- Matcher for `params:\s*\{\s*<pn>:\s*string\s*\}` (line 65). -/
def propTypeMatch (pn : List Char) (l : List Char) : Option (List Char) := do
  let r ← dropLit "params:".data l
  let r ← expectChar '\x7b' (dropWs r)
  let r ← dropLit (pn ++ ":".data) (dropWs r)
  let r ← dropLit "string".data (dropWs r)
  expectChar '\x7d' (dropWs r)

def propTypeRepl (pn : List Char) : List Char :=
  "params: Promise<\x7b ".data ++ pn ++ ": string \x7d>".data

def interfaceSub (pn l : List Char) : List Char :=
  subAll (propTypeMatch pn) (propTypeRepl pn) l

/-- Matcher for
`export\s+default\s+function\s+\w+\s*\([^)]*params[^)]*\)\s*\{` (line 74);
the returned suffix starts at `match.end()`. -/
def propFuncMatchAt (l : List Char) : Option (List Char) := do
  let r0 ← matchFuncDecl l
  let r ← expectChar '(' (dropWs r0)
  let content := r.takeWhile (· ≠ ')')
  if containsL content "params".data then do
    let r2 ← expectChar ')' (r.dropWhile (· ≠ ')'))
    expectChar '\x7b' (dropWs r2)
  else none

def propFuncMatch (l : List Char) : Option (List Char) := searchSuffix propFuncMatchAt l

/-- The params-prop branch of `migrate_file` (lines 57-91). -/
def propEdits (pn c1 : List Char) : List Char :=
  let c2 := interfaceSub pn c1
  match propFuncMatch c2 with
  | none => c2
  | some fe =>
    let c3 := insertUnwrapAfter c2 fe pn
    wordSub ("params.".data ++ pn) pn c3

/-! ## migrate_file as a pure transform, classification, drivers -/

def useParamsCallLit : List Char := "useParams()".data

/-- The pure content transform of `migrate_file` (lines 28-198): returns
the final content and the changed flag it reports.  Early returns (already
migrated / unknown pattern) leave the file untouched. -/
def migrateL (t : List Char) : List Char × Bool :=
  if alreadyMigratedB t then (t, false)
  else
    let pn := detectParamName t
    let c1 := step1Text t
    if usesParamsProp c1 then
      let c2 := propEdits pn c1
      (c2, decide (c2 ≠ t))
    else if containsL c1 useParamsCallLit then
      let c2 := hookEdits pn c1
      (c2, decide (c2 ≠ t))
    else (t, false)

def migrateText (s : String) : String := ⟨(migrateL s.data).1⟩

inductive FileVariant
  | alreadyMigrated
  | paramsProp
  | hookPattern
  | unrecognized
deriving DecidableEq

/-- The classification implicit in `migrate_file`'s branch structure,
checked in source order with first match winning. -/
def classify (t : List Char) : FileVariant :=
  if alreadyMigratedB t then .alreadyMigrated
  else
    let c1 := step1Text t
    if usesParamsProp c1 then .paramsProp
    else if containsL c1 useParamsCallLit then .hookPattern
    else .unrecognized

/-- Outcome of one driver call: the file's final text, whether a write
happened, and the changed flag reported to the batch loop. -/
structure DriverOutcome where
  fileText : List Char
  wrote : Bool
  reported : Bool
deriving DecidableEq

/-- `fix_file` write-back logic (fix-logger-calls.py lines 95-99). -/
def fixFileDrive (orig : List Char) : DriverOutcome :=
  let content := logSub orig
  if content ≠ orig then ⟨content, true, true⟩ else ⟨orig, false, false⟩

/-- `migrate_file` write-back logic (migrate-params.py lines 190-198). -/
def migrateFileDrive (orig : List Char) : DriverOutcome :=
  let r := migrateL orig
  if r.2 then ⟨r.1, true, true⟩ else ⟨orig, false, false⟩

/-! ## Failure propagation (claim C9)

File reads and writes are embedded as `Except` values.  `fix_file` wraps
its whole body in `try/except` (lines 82-103), so any failure is absorbed
into a `False` return; `migrate_file` has no handler, so a failure
propagates to `main`'s loop (lines 242-250), which only guards against
missing files via `Path.exists()`. -/

inductive FsError
  | permissionDenied
  | missingFile
  | encodingFault
deriving DecidableEq

/-- `fix_file` with fallible read and write: the `except` clause turns any
failure into `False`. -/
def fixFileTry (readRes : Except FsError (List Char))
    (writeRes : Except FsError Unit) : Bool :=
  match readRes with
  | .error _ => false
  | .ok t =>
    let content := logSub t
    if content ≠ t then
      match writeRes with
      | .error _ => false
      | .ok _ => true
    else false

/-- The fix-logger batch loop: every file is processed regardless of
earlier failures. -/
def fixBatch : List (Except FsError (List Char)) → List Bool
  | [] => []
  | r :: rs => fixFileTry r (.ok ()) :: fixBatch rs

/-- `migrate_file` with fallible read and write: no handler, failures
propagate. -/
def migrateFileTry (readRes : Except FsError (List Char))
    (writeRes : Except FsError Unit) : Except FsError Bool :=
  match readRes with
  | .error e => .error e
  | .ok t =>
    let r := migrateL t
    if r.2 then
      match writeRes with
      | .error e => .error e
      | .ok _ => .ok true
    else .ok false

/-- The migrate batch loop: `none` models a path failing the
`Path.exists()` check (skipped); a propagating failure aborts the whole
loop. -/
def migrateBatch : List (Option (Except FsError (List Char))) → Except FsError (List Bool)
  | [] => .ok []
  | none :: rs => (migrateBatch rs).map (fun bs => false :: bs)
  | some r :: rs =>
    match migrateFileTry r (.ok ()) with
    | .error e => .error e
    | .ok b => (migrateBatch rs).map (fun bs => b :: bs)

/-! ## Claim-side definitions

`specLoggerRewrite` renders claim C2's wording as a function, to be
compared with `fixLoggerCall` (which transcribes the script). -/

/-- One synthesized property per claim C2: a bare identifier becomes a
shorthand property; anything else becomes `argN: <expression>` with `N`
its 1-based position among the remaining elements. -/
def claimEntry (n : Nat) (a : List Char) : List Char :=
  if isIdentifier (pyStrip a) then pyStrip a else argKey n ++ pyStrip a

/-- Entries numbered by 1-based position among the remaining elements. -/
def claimEntriesFrom (n : Nat) : List (List Char) → List (List Char)
  | [] => []
  | a :: rest => claimEntry n a :: claimEntriesFrom (n + 1) rest

def claimEntries (rest : List (List Char)) : List (List Char) :=
  claimEntriesFrom 1 rest

/-- Claim C2's case analysis: unchanged for 0 or 1 elements; unchanged for
exactly 2 elements whose second, after trimming, begins with a brace and
ends with a brace; otherwise the folded call. -/
def specLoggerRewrite (level args : List Char) : List Char :=
  let parts := splitArgs args
  if parts.length = 0 ∨ parts.length = 1 then origCall level args
  else if parts.length = 2 ∧ (pyStrip (parts.getD 1 [])).head? = some '\x7b' ∧
      (pyStrip (parts.getD 1 [])).getLast? = some '\x7d' then
    origCall level args
  else
    "log.".data ++ level ++ "(".data ++ parts.headD [] ++ ", ".data ++
      ("\x7b ".data ++ joinComma (claimEntries parts.tail) ++ " \x7d".data) ++ ")".data

/-- States whose open-string register only ever holds one of the three
quote characters; all states reachable from `pInit` satisfy this. -/
def strOk (p : PState) : Prop :=
  ∀ q, p.str = some q → quoteChars.contains q = true

/-- A braced React import (the shape targeted by the injection pattern)
occurs somewhere in the text. -/
def hasReactBraceImport (t : List Char) : Bool :=
  searchAny (fun l => (importMatchAt l).isSome) t

/-! # Supporting lemmas: the tokenizer state machine -/

theorem scanP_append (p : PState) (a b : List Char) :
    scanP p (a ++ b) = scanP (scanP p a) b := by
  induction a generalizing p with
  | nil => rfl
  | cons c cs ih => simp [scanP, ih]

theorem scanT_append (s : TState) (a b : List Char) :
    scanT s (a ++ b) = scanT (scanT s a) b := by
  induction a generalizing s with
  | nil => rfl
  | cons c cs ih => simp [scanT, ih]

theorem strOk_pInit : strOk pInit := by
  intro q h
  simp [pInit] at h

theorem strOk_pstep (p : PState) (c : Char) (h : strOk p) : strOk (pstep p c) := by
  unfold pstep
  split
  · next hc =>
      intro q hq
      simp at hq
      subst hq
      exact hc.1
  · split
    · intro q hq
      simp at hq
    · split
      · intro q hq
        simp at hq
        exact h q hq
      · split
        · intro q hq
          simp at hq
          exact h q hq
        · split
          · intro q hq
            simp at hq
            exact h q hq
          · split
            · intro q hq
              simp at hq
              exact h q hq
            · exact h

theorem strOk_scanP (p : PState) (cs : List Char) (h : strOk p) : strOk (scanP p cs) := by
  induction cs generalizing p with
  | nil => exact h
  | cons c cs ih => exact ih (pstep p c) (strOk_pstep p c h)

theorem pyspace_not_special (c : Char) (hc : isPySpace c = true) :
    quoteChars.contains c = false ∧ c ≠ '(' ∧ c ≠ ')' ∧ c ≠ '\x7b' ∧ c ≠ '\x7d' ∧ c ≠ ',' := by
  simp [isPySpace] at hc
  rcases hc with ((((h | h) | h) | h) | h) | h <;> subst h <;> decide

theorem pstep_ws (p : PState) (c : Char) (hp : strOk p) (hc : isPySpace c = true) :
    pstep p c = p := by
  obtain ⟨h1, h2, h3, h4, h5, _⟩ := pyspace_not_special c hc
  have h1m : ¬c ∈ quoteChars := by simpa using h1
  have hs : ¬p.str = some c := by
    intro h
    rw [hp c h] at h1
    cases h1
  unfold pstep
  simp [h1m, h2, h3, h4, h5, hs]

theorem scanP_ws (p : PState) (w : List Char) (hp : strOk p)
    (hw : ∀ c ∈ w, isPySpace c = true) : scanP p w = p := by
  induction w with
  | nil => rfl
  | cons c cs ih =>
      have hc : isPySpace c = true := hw c (List.mem_cons_self c cs)
      have h1 : pstep p c = p := pstep_ws p c hp hc
      simp [scanP, h1]
      exact ih (fun d hd => hw d (List.mem_cons_of_mem c hd))

theorem pyStrip_decomp (l : List Char) :
    ∃ w1 w2, l = w1 ++ pyStrip l ++ w2 ∧ (∀ c ∈ w1, isPySpace c = true) ∧
      ∀ c ∈ w2, isPySpace c = true := by
  refine ⟨l.takeWhile isPySpace,
    ((l.dropWhile isPySpace).reverse.takeWhile isPySpace).reverse, ?_, ?_, ?_⟩
  · rw [List.append_assoc]
    conv_lhs => rw [← List.takeWhile_append_dropWhile (p := isPySpace) (l := l)]
    congr 1
    conv_lhs => rw [← List.reverse_reverse (l.dropWhile isPySpace)]
    conv_lhs => rw [← List.takeWhile_append_dropWhile (p := isPySpace)
      (l := (l.dropWhile isPySpace).reverse)]
    conv_lhs => rw [List.reverse_append]
    rfl
  · intro c hc
    exact List.mem_takeWhile_imp hc
  · intro c hc
    rw [List.mem_reverse] at hc
    exact List.mem_takeWhile_imp hc

theorem scanP_pyStrip (p : PState) (l : List Char) (hp : strOk p) :
    scanP p (pyStrip l) = scanP p l := by
  obtain ⟨w1, w2, hl, hw1, hw2⟩ := pyStrip_decomp l
  conv_rhs => rw [hl]
  rw [scanP_append, scanP_append, scanP_ws p w1 hp hw1,
    scanP_ws _ w2 (strOk_scanP p (pyStrip l) hp) hw2]

theorem pstep_comma (p : PState) (h : p.str = none) : pstep p ',' = p := by
  have h1m : ¬(',' : Char) ∈ quoteChars := by decide
  simp [pstep, h1m, h]

theorem tstep_p (s : TState) (c : Char) : (tstep s c).p = pstep s.p c := by
  unfold tstep
  split
  · next hcond =>
      obtain ⟨hc, hstr, hpar, hbr⟩ := hcond
      subst hc
      have h1m : ¬(',' : Char) ∈ quoteChars := by decide
      simp [pstep, h1m, hstr]
  · rfl

theorem scanT_p (s : TState) (cs : List Char) : (scanT s cs).p = scanP s.p cs := by
  induction cs generalizing s with
  | nil => rfl
  | cons c cs ih =>
      simp [scanT, scanP, ih, tstep_p]

theorem scanT_parts_len (s : TState) (cs : List Char) :
    (scanT s cs).parts.length = s.parts.length + topCommasP s.p cs := by
  induction cs generalizing s with
  | nil => simp [scanT, topCommasP]
  | cons c cs ih =>
      rw [scanT, ih, topCommasP, tstep_p]
      unfold tstep
      split
      · next hcond =>
          obtain ⟨hc, hstr, hpar, hbr⟩ := hcond
          simp [hc, hstr, hpar, hbr]
          omega
      · next hcond =>
          have : ¬(c = ',' ∧ s.p.str = none ∧ s.p.paren = 0 ∧ s.p.brace = 0) := hcond
          simp [this]

theorem pInit_of_flat (p : PState) (hstr : p.str = none) (hpar : p.paren = 0)
    (hbr : p.brace = 0) : p = pInit := by
  cases p
  simp_all [pInit]

theorem scanT_frag_inv (s : TState) (cs : List Char)
    (h1 : strOk s.p) (h2 : scanP pInit s.cur = s.p)
    (h3 : ∀ q ∈ s.parts, scanP pInit q = pInit) :
    strOk (scanT s cs).p ∧ scanP pInit (scanT s cs).cur = (scanT s cs).p ∧
      ∀ q ∈ (scanT s cs).parts, scanP pInit q = pInit := by
  induction cs generalizing s with
  | nil => exact ⟨h1, h2, h3⟩
  | cons c cs ih =>
      rw [scanT]
      refine ih (tstep s c) ?_ ?_ ?_
      · rw [tstep_p]
        exact strOk_pstep s.p c h1
      · rw [tstep_p]
        unfold tstep
        split
        · next hcond =>
            obtain ⟨hc, hstr, hpar, hbr⟩ := hcond
            have hsp : s.p = pInit := pInit_of_flat s.p hstr hpar hbr
            subst hc
            rw [pstep_comma s.p hstr, hsp]
            rfl
        · rw [scanP_append, h2]
          rfl
      · unfold tstep
        split
        · next hcond =>
            obtain ⟨hc, hstr, hpar, hbr⟩ := hcond
            have hsp : s.p = pInit := pInit_of_flat s.p hstr hpar hbr
            intro q hq
            simp at hq
            rcases hq with hq | hq
            · exact h3 q hq
            · subst hq
              rw [scanP_pyStrip pInit s.cur strOk_pInit, h2, hsp]
        · intro q hq
          exact h3 q hq

theorem scanT_parts_shift (t : List Char) (P : List (List Char)) (c0 : List Char)
    (p0 : PState) :
    scanT ⟨P, c0, p0⟩ t =
      ⟨P ++ (scanT ⟨[], c0, p0⟩ t).parts, (scanT ⟨[], c0, p0⟩ t).cur,
        (scanT ⟨[], c0, p0⟩ t).p⟩ := by
  induction t generalizing P c0 p0 with
  | nil => simp [scanT]
  | cons c cs ih =>
      rw [scanT, scanT]
      unfold tstep
      simp only
      split
      · rw [ih]
        simp only [List.nil_append]
        rw [ih (P := [pyStrip c0])]
        simp
      · rw [ih]

theorem pyStrip_allws (l : List Char) (h : ∀ c ∈ l, isPySpace c = true) :
    pyStrip l = [] := by
  unfold pyStrip
  have h1 : l.dropWhile isPySpace = [] := by
    rw [List.dropWhile_eq_nil_iff]
    exact h
  rw [h1]
  rfl

theorem scanT_allws (w : List Char) (parts : List (List Char)) (cur : List Char)
    (hw : ∀ c ∈ w, isPySpace c = true) :
    scanT ⟨parts, cur, pInit⟩ w = ⟨parts, cur ++ w, pInit⟩ := by
  induction w generalizing cur with
  | nil => simp [scanT]
  | cons c cs ih =>
      have hc : isPySpace c = true := hw c (List.mem_cons_self c cs)
      obtain ⟨_, _, _, _, _, hcomma⟩ := pyspace_not_special c hc
      rw [scanT]
      have hstep : tstep ⟨parts, cur, pInit⟩ c = ⟨parts, cur ++ [c], pInit⟩ := by
        unfold tstep
        simp [hcomma, pstep_ws pInit c strOk_pInit hc]
      rw [hstep, ih (cur ++ [c]) (fun d hd => hw d (List.mem_cons_of_mem c hd))]
      simp

/-! # Claim C4: tokenizer fragment count and balance -/

/-- C4 counterexample input: `"a, "` is balanced but its text after the
(single) top-level comma is all whitespace, so the trailing fragment is
dropped and only one fragment is returned. -/
theorem tokenizerBalanceCex :
    wellFormedArgs "a, ".data = true ∧ topCommas "a, ".data = 1 ∧
      (splitArgs "a, ".data).length = 1 ∧
      (splitArgs "a, ".data).length ≠ topCommas "a, ".data + 1 := by
  refine ⟨by decide, by decide, by decide, by decide⟩

/-- C4 (amended): for a well-formed argument string whose text after the
last top-level comma is not entirely whitespace, the fragment count is the
top-level comma count plus one, and scanning any returned fragment ends
with zero paren depth, zero brace depth and no open string. -/
theorem tokenizerBalance (args : List Char)
    (hwf : wellFormedArgs args = true)
    (htail : pyStrip (scanT tInit args).cur ≠ []) :
    (splitArgs args).length = topCommas args + 1 ∧
      ∀ q ∈ splitArgs args, scanP pInit q = pInit := by
  have hwf2 : scanP pInit args = pInit := by
    simpa [wellFormedArgs] using hwf
  have hcount : (scanT tInit args).parts.length = topCommas args := by
    have := scanT_parts_len tInit args
    simpa [tInit, topCommas] using this
  have hinv := scanT_frag_inv tInit args strOk_pInit (by rfl) (by intro q hq; cases hq)
  obtain ⟨hstr, hcur, hparts⟩ := hinv
  have hp : (scanT tInit args).p = pInit := by
    rw [scanT_p]
    exact hwf2
  constructor
  · unfold splitArgs
    rw [if_pos htail, List.length_append, hcount]
    rfl
  · intro q hq
    unfold splitArgs at hq
    rw [if_pos htail, List.mem_append] at hq
    rcases hq with hq | hq
    · exact hparts q hq
    · simp at hq
      subst hq
      rw [scanP_pyStrip pInit _ strOk_pInit, hcur, hp]

/-- Witness for C4 at `"a, f(x, y), b"`. -/
theorem tokenizerBalanceWitness :
    (splitArgs "a, f(x, y), b".data).length = topCommas "a, f(x, y), b".data + 1 ∧
      ∀ q ∈ splitArgs "a, f(x, y), b".data, scanP pInit q = pInit :=
  tokenizerBalance "a, f(x, y), b".data (by decide) (by decide)

/-! # Claim C5: tokenizer edge cases -/

/-- C5: the empty argument string and whitespace-only argument strings
tokenize to the empty sequence, and a fragment delimited by a real
top-level comma is appended even when it strips to the empty string —
only the trailing in-flight fragment is subject to the nonempty guard. -/
theorem tokenizerEdgeCases :
    splitArgs [] = [] ∧
      (∀ w, (∀ c ∈ w, isPySpace c = true) → splitArgs w = []) ∧
      ∀ s t, scanP pInit s = pInit →
        splitArgs (s ++ ',' :: t) =
          (scanT tInit s).parts ++ pyStrip (scanT tInit s).cur :: splitArgs t := by
  refine ⟨rfl, ?_, ?_⟩
  · intro w hw
    unfold splitArgs
    rw [show tInit = (⟨[], [], pInit⟩ : TState) from rfl, scanT_allws w [] [] hw]
    simp [pyStrip_allws w hw]
  · intro s t hs
    have hSp : (scanT tInit s).p = pInit := by rw [scanT_p]; exact hs
    have hcomma : tstep (scanT tInit s) ',' =
        ⟨(scanT tInit s).parts ++ [pyStrip (scanT tInit s).cur], [], (scanT tInit s).p⟩ := by
      unfold tstep
      rw [if_pos]
      refine ⟨rfl, ?_, ?_, ?_⟩ <;> rw [hSp] <;> rfl
    unfold splitArgs
    rw [scanT_append,
      show scanT (scanT tInit s) (',' :: t) = scanT (tstep (scanT tInit s) ',') t from rfl,
      hcomma, hSp, scanT_parts_shift,
      show (⟨[], [], pInit⟩ : TState) = tInit from rfl]
    by_cases hc : pyStrip (scanT tInit t).cur = []
    · simp [hc]
    · simp [hc]

/-- Witness for C5: a whitespace-only input, and an interior comma after
`"a"` with remainder `" b"`. -/
theorem tokenizerEdgeCasesWitness :
    splitArgs "  ".data = [] ∧
      splitArgs ("a".data ++ ',' :: " b".data) =
        (scanT tInit "a".data).parts ++
          pyStrip (scanT tInit "a".data).cur :: splitArgs " b".data :=
  ⟨tokenizerEdgeCases.2.1 "  ".data (by decide),
    tokenizerEdgeCases.2.2 "a".data " b".data (by decide)⟩

/-! # Claim C2: the Logging Recipe per-call rewrite -/

theorem metaEntriesGo_eq_claimEntriesFrom (l : List (List Char)) (i : Nat) :
    metaEntriesGo i l = claimEntriesFrom (i + 1) l := by
  induction l generalizing i with
  | nil => rfl
  | cons a rest ih =>
      rw [metaEntriesGo, claimEntriesFrom, ih (i + 1)]
      rfl

/-- C2: `fix_logger_call` agrees with claim C2's case analysis at every
level name and argument text, and on the claim's example
`log.error('failed', err, userId)` the full-text rewrite yields
`log.error('failed', { err, userId })`. -/
theorem loggerRewriteCases :
    (∀ level args, fixLoggerCall level args = specLoggerRewrite level args) ∧
      logSub ("log.error(".data ++ [squote] ++ "failed".data ++ [squote] ++
          ", err, userId)".data) =
        "log.error(".data ++ [squote] ++ "failed".data ++ [squote] ++
          ", \x7b err, userId \x7d)".data := by
  constructor
  · intro level args
    simp only [fixLoggerCall, specLoggerRewrite]
    by_cases h1 : (splitArgs args).length ≤ 1
    · have hd : (splitArgs args).length = 0 ∨ (splitArgs args).length = 1 := by omega
      rw [if_pos h1, if_pos hd]
    · have hd : ¬((splitArgs args).length = 0 ∨ (splitArgs args).length = 1) := by omega
      rw [if_neg h1, if_neg hd]
      by_cases h2 : (splitArgs args).length = 2 ∧
          isObjLiteral (pyStrip ((splitArgs args).getD 1 []))
      · have h3 := h2.2
        simp only [isObjLiteral, Bool.and_eq_true, decide_eq_true_eq] at h3
        rw [if_pos h2, if_pos ⟨h2.1, h3.1, h3.2⟩]
      · rw [if_neg h2, if_neg ?_]
        · rw [metaEntriesGo_eq_claimEntriesFrom]
          rfl
        · intro h
          refine h2 ⟨h.1, ?_⟩
          simp only [isObjLiteral, Bool.and_eq_true, decide_eq_true_eq]
          exact ⟨h.2.1, h.2.2⟩
  · decide

/-! # Claim C1: idempotence of the two transforms -/

set_option maxRecDepth 100000 in
/-- C1 counterexample: neither transform is idempotent as stated.  The
Logging rewrite applied twice to `log.error(m, }, z)` differs from one
application (the unbalanced brace makes the synthesized object retokenize
into three fragments), and the Params migrate transform applied twice to
a one-line hook component without trailing newline differs from one
application (the second run reclassifies the rewritten signature as the
params-prop pattern and rewrites `params.id`). -/
theorem idempotenceCex :
    logSub (logSub "log.error(m, \x7d, z)".data) ≠ logSub "log.error(m, \x7d, z)".data ∧
      (migrateL ((migrateL ("const params = useParams();\nexport default function Page() \x7b return params.id; \x7d".data)).1)).1 ≠
        (migrateL ("const params = useParams();\nexport default function Page() \x7b return params.id; \x7d".data)).1 := by
  exact ⟨by decide, by decide⟩

/-- C1 (amended): re-running a transform changes nothing once its output
is in recognised final form — a text the Logging rewrite leaves unchanged
is a fixed point of it, and a migrate output that the already-migrated
guard recognises (it contains `use(params)`), or that equals its input,
is a fixed point of the migrate transform. -/
theorem idempotenceOnFinalForm :
    (∀ s, logSub s = s → logSub (logSub s) = logSub s) ∧
      (∀ s, alreadyMigratedB ((migrateL s).1) = true →
        (migrateL ((migrateL s).1)).1 = (migrateL s).1) ∧
      (∀ s, (migrateL s).1 = s → (migrateL ((migrateL s).1)).1 = (migrateL s).1) := by
  refine ⟨?_, ?_, ?_⟩
  · intro s h
    rw [h, h]
  · intro s h
    generalize hx : (migrateL s).1 = x at h ⊢
    unfold migrateL
    rw [if_pos h]
  · intro s h
    rw [h, h]

/-- Witness for C1 (amended): a single-argument call is a fixed point of
the Logging rewrite, and a text containing `use(params)` is a fixed point
of the migrate transform. -/
theorem idempotenceOnFinalFormWitness :
    logSub (logSub "log.info(\"x\")".data) = logSub "log.info(\"x\")".data ∧
      (migrateL ((migrateL "use(params)".data).1)).1 = (migrateL "use(params)".data).1 :=
  ⟨idempotenceOnFinalForm.1 "log.info(\"x\")".data (by decide),
    idempotenceOnFinalForm.2.1 "use(params)".data (by decide)⟩

/-! # Claim C3: the hook migration scenario -/

set_option maxRecDepth 100000 in
/-- C3: on the hook-pattern scenario file the migrate output contains the
inserted PageProps interface, the destructured parameter, the unwrap
binding, and no occurrence of `taskId` or `useParams` — but the mangled
remnant `const params =();` of the invocation/assignment line is still
present: the earlier substitution for `,?\s*useParams\s*` strips the
`useParams` token that the invocation-line removal regex
`const\s+params\s*=\s*useParams\(\);\s*\n` needs, so that removal never
fires and the line survives (contradicting the script's own
`Removed useParams() call` progress message). -/
theorem hookScenarioLineRemains :
    (migrateL "import \x7b useParams \x7d from \"next/navigation\";\n\nexport default function TaskPage() \x7b\n  const params = useParams();\n  const taskId = params.id as string;\n  return taskId;\n\x7d\n".data).1 =
      "import \x7b\x7d from \"next/navigation\";\n\ninterface PageProps \x7b\n  params: Promise<\x7b id: string \x7d>;\n\x7d\n\nexport default function TaskPage(\x7b params \x7d: PageProps) \x7b\n  const \x7b id \x7d = use(params);\n  const params =();\n    return id;\n\x7d\n".data ∧
      containsL "import \x7b\x7d from \"next/navigation\";\n\ninterface PageProps \x7b\n  params: Promise<\x7b id: string \x7d>;\n\x7d\n\nexport default function TaskPage(\x7b params \x7d: PageProps) \x7b\n  const \x7b id \x7d = use(params);\n  const params =();\n    return id;\n\x7d\n".data
        "const params =();".data = true ∧
      containsL "import \x7b\x7d from \"next/navigation\";\n\ninterface PageProps \x7b\n  params: Promise<\x7b id: string \x7d>;\n\x7d\n\nexport default function TaskPage(\x7b params \x7d: PageProps) \x7b\n  const \x7b id \x7d = use(params);\n  const params =();\n    return id;\n\x7d\n".data
        "useParams".data = false ∧
      containsL "import \x7b\x7d from \"next/navigation\";\n\ninterface PageProps \x7b\n  params: Promise<\x7b id: string \x7d>;\n\x7d\n\nexport default function TaskPage(\x7b params \x7d: PageProps) \x7b\n  const \x7b id \x7d = use(params);\n  const params =();\n    return id;\n\x7d\n".data
        "taskId".data = false ∧
      containsL "import \x7b\x7d from \"next/navigation\";\n\ninterface PageProps \x7b\n  params: Promise<\x7b id: string \x7d>;\n\x7d\n\nexport default function TaskPage(\x7b params \x7d: PageProps) \x7b\n  const \x7b id \x7d = use(params);\n  const params =();\n    return id;\n\x7d\n".data
        "const \x7b id \x7d = use(params);".data = true ∧
      containsL "import \x7b\x7d from \"next/navigation\";\n\ninterface PageProps \x7b\n  params: Promise<\x7b id: string \x7d>;\n\x7d\n\nexport default function TaskPage(\x7b params \x7d: PageProps) \x7b\n  const \x7b id \x7d = use(params);\n  const params =();\n    return id;\n\x7d\n".data
        "(\x7b params \x7d: PageProps)".data = true := by
  refine ⟨by decide, by decide, by decide, by decide, by decide, by decide⟩

/-! # Claim C6: classifier totality, exclusivity, ordering -/

/-- C6: for every file text exactly one variant is selected, the rules
are checked in source order with first match winning, and a text
containing `use(params)` is AlreadyMigrated with the file returned
untouched. -/
theorem classifierExclusive (t : List Char) :
    (classify t = .alreadyMigrated ∨ classify t = .paramsProp ∨
        classify t = .hookPattern ∨ classify t = .unrecognized) ∧
      (classify t = .alreadyMigrated ↔ alreadyMigratedB t = true) ∧
      (classify t = .paramsProp ↔
        alreadyMigratedB t = false ∧ usesParamsProp (step1Text t) = true) ∧
      (classify t = .hookPattern ↔
        alreadyMigratedB t = false ∧ usesParamsProp (step1Text t) = false ∧
          containsL (step1Text t) useParamsCallLit = true) ∧
      (classify t = .unrecognized ↔
        alreadyMigratedB t = false ∧ usesParamsProp (step1Text t) = false ∧
          containsL (step1Text t) useParamsCallLit = false) ∧
      (containsL t "use(params)".data = true →
        classify t = .alreadyMigrated ∧ migrateL t = (t, false)) := by
  cases h1 : alreadyMigratedB t with
  | true => simp [classify, migrateL, h1]
  | false =>
      have huse : containsL t "use(params)".data = false := by
        unfold alreadyMigratedB at h1
        exact (Bool.or_eq_false_iff.mp h1).1
      cases h2 : usesParamsProp (step1Text t) with
      | true => simp [classify, migrateL, h1, h2, huse]
      | false =>
          cases h3 : containsL (step1Text t) useParamsCallLit with
          | true => simp [classify, migrateL, h1, h2, h3, huse]
          | false => simp [classify, migrateL, h1, h2, h3, huse]

/-- Witness for C6 at the text `use(params)`. -/
theorem classifierExclusiveWitness :
    classify "use(params)".data = FileVariant.alreadyMigrated ∧
      migrateL "use(params)".data = ("use(params)".data, false) :=
  (classifierExclusive "use(params)".data).2.2.2.2.2 (by decide)

/-! # Claim C7: ParamName inference -/

/-- C7 counterexample: a text containing the bare identifier
`trackingNumber` but not the route-segment marker `[trackingNumber]`
yields `trackingNumber`, where the claim requires the generic `id`. -/
theorem paramNameCex :
    detectParamName "trackingNumber".data = "trackingNumber".data ∧
      containsL "trackingNumber".data "[trackingNumber]".data = false :=
  ⟨by decide, by decide⟩

theorem startsWithL_iff (n l : List Char) :
    startsWithL l n = true ↔ ∃ r, l = n ++ r := by
  induction n generalizing l with
  | nil =>
      cases l <;> simp [startsWithL]
  | cons a bs ih =>
      cases l with
      | nil => simp [startsWithL]
      | cons c cs =>
          rw [startsWithL]
          by_cases hca : c = a
          · subst hca
            simp [ih]
          · simp [hca, Ne.symm hca]

theorem containsL_iff (n l : List Char) :
    containsL l n = true ↔ ∃ p q, l = p ++ n ++ q := by
  induction l with
  | nil =>
      simp [containsL, startsWithL_iff]
  | cons c cs ih =>
      rw [containsL, Bool.or_eq_true, startsWithL_iff, ih]
      constructor
      · rintro (⟨r, hr⟩ | ⟨p, q, hp⟩)
        · exact ⟨[], r, by simp [hr]⟩
        · exact ⟨c :: p, q, by simp [hp]⟩
      · rintro ⟨p, q, hp⟩
        cases p with
        | nil =>
            left
            exact ⟨q, by simpa using hp⟩
        | cons d ds =>
            right
            rw [List.cons_append, List.cons_append, List.cons.injEq] at hp
            exact ⟨ds, q, hp.2⟩

theorem containsL_of_marker (t : List Char)
    (h : containsL t "[trackingNumber]".data = true) :
    containsL t "trackingNumber".data = true := by
  rw [containsL_iff] at h ⊢
  obtain ⟨p, q, hpq⟩ := h
  refine ⟨p ++ ['['], ']' :: q, ?_⟩
  rw [hpq]
  have hdec : "[trackingNumber]".data = '[' :: ("trackingNumber".data ++ [']']) := by
    decide
  rw [hdec]
  simp

/-- C7 (amended): the detected name is `trackingNumber` exactly when the
text contains the substring `trackingNumber` (the bracketed route-segment
marker being just one instance of it), and `id` otherwise. -/
theorem paramNameDetect (t : List Char) :
    detectParamName t =
      (if containsL t "trackingNumber".data = true then "trackingNumber".data
       else "id".data) := by
  unfold detectParamName
  cases h : containsL t "trackingNumber".data with
  | true => simp [h]
  | false =>
      have hA : containsL t "[trackingNumber]".data = false := by
        cases hA : containsL t "[trackingNumber]".data with
        | false => rfl
        | true => rw [containsL_of_marker t hA] at h; cases h
      simp [h, hA]

/-! # Claim C8: write iff changed -/

theorem migrateChangedIff (t : List Char) :
    (migrateL t).2 = true ↔ (migrateL t).1 ≠ t := by
  cases h1 : alreadyMigratedB t with
  | true => simp [migrateL, h1]
  | false =>
      cases h2 : usesParamsProp (step1Text t) with
      | true => simp [migrateL, h1, h2]
      | false =>
          cases h3 : containsL (step1Text t) useParamsCallLit with
          | true => simp [migrateL, h1, h2, h3]
          | false => simp [migrateL, h1, h2, h3]

/-- C8: each driver writes back exactly when the recipe output differs
from the original text, the reported changed flag coincides with the
write decision, and an unwritten file keeps its original text. -/
theorem driverWriteIffChanged (t : List Char) :
    ((fixFileDrive t).wrote = true ↔ logSub t ≠ t) ∧
      (fixFileDrive t).reported = (fixFileDrive t).wrote ∧
      ((fixFileDrive t).wrote = false → (fixFileDrive t).fileText = t) ∧
      ((fixFileDrive t).wrote = true → (fixFileDrive t).fileText = logSub t) ∧
      ((migrateFileDrive t).wrote = true ↔ (migrateL t).1 ≠ t) ∧
      (migrateFileDrive t).reported = (migrateFileDrive t).wrote ∧
      ((migrateFileDrive t).wrote = false → (migrateFileDrive t).fileText = t) ∧
      ((migrateFileDrive t).wrote = true → (migrateFileDrive t).fileText = (migrateL t).1) := by
  have hfix : fixFileDrive t =
      if logSub t ≠ t then ⟨logSub t, true, true⟩ else ⟨t, false, false⟩ := rfl
  have hmig := migrateChangedIff t
  constructor
  · rw [hfix]
    by_cases h : logSub t = t <;> simp [h]
  refine ⟨?_, ?_, ?_, ?_, ?_, ?_, ?_⟩
  · rw [hfix]
    by_cases h : logSub t = t <;> simp [h]
  · rw [hfix]
    by_cases h : logSub t = t <;> simp [h]
  · rw [hfix]
    by_cases h : logSub t = t <;> simp [h]
  · unfold migrateFileDrive
    cases h : (migrateL t).2 with
    | true => simpa [h] using hmig.mp h
    | false =>
        simp [h]
        by_contra hc
        have h2 := hmig.mpr hc
        rw [h] at h2
        cases h2
  · unfold migrateFileDrive
    cases h : (migrateL t).2 <;> simp [h]
  · unfold migrateFileDrive
    cases h : (migrateL t).2 <;> simp [h]
  · unfold migrateFileDrive
    cases h : (migrateL t).2 <;> simp [h]

/-- Witness for C8 on a file with no logger call and no recognised
pattern: nothing is written and the text is kept. -/
theorem driverWriteIffChangedWitness :
    (fixFileDrive "hello".data).fileText = "hello".data ∧
      (migrateFileDrive "hello".data).fileText = "hello".data :=
  ⟨(driverWriteIffChanged "hello".data).2.2.1 (by decide),
    (driverWriteIffChanged "hello".data).2.2.2.2.2.2.1 (by decide)⟩

/-! # Claim C9: failure propagation -/

/-- C9 counterexample: a read failure on the first (existing) file aborts
the migrate batch — the second file is never processed — whereas the
fix-logger batch absorbs the same failure and continues. -/
theorem failurePropagationCex :
    migrateBatch [some (Except.error FsError.permissionDenied),
        some (Except.ok "log.error(a, b)".data)] =
      Except.error FsError.permissionDenied ∧
      fixBatch [Except.error FsError.permissionDenied,
        Except.ok "log.error(a, b)".data] = [false, true] :=
  ⟨rfl, by decide⟩

/-- C9 (amended): the Logging driver absorbs per-file failures and its
batch always continues; the Params batch absorbs only missing files
(the existence check), while a read failure on an existing file
propagates out of `migrate_file` and aborts the batch. -/
theorem failurePropagation :
    (∀ e rest, fixBatch (Except.error e :: rest) = false :: fixBatch rest) ∧
      (∀ rs, migrateBatch (none :: rs) =
        (migrateBatch rs).map (fun bs => false :: bs)) ∧
      (∀ e rs, migrateBatch (some (Except.error e) :: rs) = Except.error e) ∧
      (∀ t rs, migrateBatch (some (Except.ok t) :: rs) =
        (migrateBatch rs).map (fun bs => (migrateL t).2 :: bs)) := by
  refine ⟨fun e rest => rfl, fun rs => rfl, fun e rs => rfl, fun t rs => ?_⟩
  have hstep : migrateFileTry (Except.ok t) (Except.ok ()) = Except.ok (migrateL t).2 := by
    unfold migrateFileTry
    cases hr : (migrateL t).2 <;> simp [hr]
  rw [show migrateBatch (some (Except.ok t) :: rs) =
      (match migrateFileTry (Except.ok t) (Except.ok ()) with
        | Except.error e => Except.error e
        | Except.ok b => (migrateBatch rs).map (fun bs => b :: bs)) from rfl,
    hstep]

/-! # Supporting lemmas for claim C10 -/

theorem dropLit_self (a r : List Char) : dropLit a (a ++ r) = some r := by
  induction a with
  | nil => rfl
  | cons c cs ih => simp [dropLit, ih]

theorem dropWhile_all_append (p : Char → Bool) (w x : List Char)
    (hw : ∀ c ∈ w, p c = true) : (w ++ x).dropWhile p = x.dropWhile p := by
  induction w with
  | nil => rfl
  | cons c cs ih =>
      rw [List.cons_append, List.dropWhile_cons, if_pos (hw c (List.mem_cons_self c cs))]
      exact ih (fun d hd => hw d (List.mem_cons_of_mem c hd))

theorem takeWhile_all_append (p : Char → Bool) (w x : List Char)
    (hw : ∀ c ∈ w, p c = true) : (w ++ x).takeWhile p = w ++ x.takeWhile p := by
  induction w with
  | nil => rfl
  | cons c cs ih =>
      rw [List.cons_append, List.takeWhile_cons, if_pos (hw c (List.mem_cons_self c cs)),
        ih (fun d hd => hw d (List.mem_cons_of_mem c hd))]
      rfl

theorem searchAny_of_here (m : List Char → Bool) (s : List Char) (h : m s = true) :
    searchAny m s = true := by
  cases s <;> simp [searchAny, h]

theorem searchAny_cons_of_tail (m : List Char → Bool) (c : Char) (x : List Char)
    (h : searchAny m x = true) : searchAny m (c :: x) = true := by
  rw [searchAny, h]
  simp

theorem importMatchAt_facts (l : List Char) (m : ImportMatch) (rest : List Char)
    (h : importMatchAt l = some (m, rest)) :
    (∀ c ∈ m.ws1, isPySpace c = true) ∧ (∀ c ∈ m.content, c ≠ '\x7d') ∧
      (∀ c ∈ m.ws2, isPySpace c = true) ∧ (∀ c ∈ m.ws3, isPySpace c = true) ∧
      isQuote2 m.q1 = true ∧ isQuote2 m.q2 = true := by
  unfold importMatchAt at h
  cases h1 : dropLit "import".data l with
  | none => rw [h1] at h; cases h
  | some r =>
      rw [h1] at h
      simp only [Option.bind_eq_bind, Option.some_bind] at h
      cases h2 : expectChar '\x7b' (r.dropWhile isPySpace) with
      | none => rw [h2] at h; cases h
      | some r2 =>
          rw [h2] at h
          simp only [Option.some_bind] at h
          cases h3 : expectChar '\x7d' (r2.dropWhile (· ≠ '\x7d')) with
          | none => rw [h3] at h; cases h
          | some r3 =>
              rw [h3] at h
              simp only [Option.some_bind] at h
              cases h4 : dropLit "from".data (r3.dropWhile isPySpace) with
              | none => rw [h4] at h; cases h
              | some r4 =>
                  rw [h4] at h
                  dsimp only at h
                  cases h5 : r4.dropWhile isPySpace with
                  | nil => rw [h5] at h; cases h
                  | cons q1 r5 =>
                      rw [h5] at h
                      dsimp only at h
                      by_cases h6 : isQuote2 q1 = true
                      · rw [if_pos h6] at h
                        cases h7 : dropLit "react".data r5 with
                        | none => rw [h7] at h; cases h
                        | some r6 =>
                            rw [h7] at h
                            cases r6 with
                            | nil => dsimp only at h; cases h
                            | cons q2 r7 =>
                                dsimp only at h
                                by_cases h8 : isQuote2 q2 = true
                                · rw [if_pos h8] at h
                                  rw [Option.some.injEq, Prod.mk.injEq] at h
                                  obtain ⟨hm, hrest⟩ := h
                                  subst hm
                                  refine ⟨?_, ?_, ?_, ?_, h6, h8⟩
                                  · intro c hc
                                    exact List.mem_takeWhile_imp hc
                                  · intro c hc
                                    have := List.mem_takeWhile_imp hc
                                    simpa using this
                                  · intro c hc
                                    exact List.mem_takeWhile_imp hc
                                  · intro c hc
                                    exact List.mem_takeWhile_imp hc
                                · rw [if_neg h8] at h
                                  cases h
                      · rw [if_neg h6] at h
                        cases h

theorem matchImportUse_injected (m : ImportMatch) (rest : List Char)
    (hws1 : ∀ c ∈ m.ws1, isPySpace c = true) (hcon : ∀ c ∈ m.content, c ≠ '\x7d')
    (hws2 : ∀ c ∈ m.ws2, isPySpace c = true) (hws3 : ∀ c ∈ m.ws3, isPySpace c = true)
    (hq1 : isQuote2 m.q1 = true) (hq2 : isQuote2 m.q2 = true) :
    matchImportUse (injectedImport m ++ rest) = some () := by
  have hb : isPySpace '\x7b' = false := by decide
  have hq1c := hq1
  have hq1ws : isPySpace m.q1 = false := by
    simp [isQuote2] at hq1c
    rcases hq1c with h | h <;> rw [h] <;> decide
  have hconB : ∀ c ∈ m.content, (fun x => !decide (x = '\x7d')) c = true := by
    intro c hc
    simpa using hcon c hc
  have e1 : ∀ T, (m.ws1 ++ T).dropWhile isPySpace = T.dropWhile isPySpace :=
    fun T => dropWhile_all_append _ _ _ hws1
  have e2 : ∀ T, (m.ws2 ++ T).dropWhile isPySpace = T.dropWhile isPySpace :=
    fun T => dropWhile_all_append _ _ _ hws2
  have e3 : ∀ T, (m.ws3 ++ T).dropWhile isPySpace = T.dropWhile isPySpace :=
    fun T => dropWhile_all_append _ _ _ hws3
  have e4 : ∀ T, (m.content ++ T).takeWhile (fun x => !decide (x = '\x7d')) =
      m.content ++ T.takeWhile (fun x => !decide (x = '\x7d')) :=
    fun T => takeWhile_all_append _ _ _ hconB
  have e5 : ∀ T, (m.content ++ T).dropWhile (fun x => !decide (x = '\x7d')) =
      T.dropWhile (fun x => !decide (x = '\x7d')) :=
    fun T => dropWhile_all_append _ _ _ hconB
  have e6 : hasWordUseGo false (' ' :: 'u' :: 's' :: 'e' :: ',' :: ' ' :: m.content) = true := by
    simp [hasWordUseGo, startsWithL, isWordChar, isIdentTail]
  have hf : isPySpace 'f' = false := by decide
  unfold matchImportUse injectedImport dropWs
  simp [e1, e2, e3, e4, e5, e6, dropLit, expectChar, List.dropWhile_cons,
    List.takeWhile_cons, hb, hf, hq1ws, hq1, hq2]

theorem hasUseImport_injectSub (t : List Char) (h : hasReactBraceImport t = true) :
    hasUseImport (injectSub t) = true := by
  induction t with
  | nil =>
      exact absurd h (by decide)
  | cons c cs ih =>
      have hun : injectSub (c :: cs) =
          (match importMatchAt (c :: cs) with
            | some (m, rest) => injectedImport m ++ rest
            | none => c :: injectSub cs) := rfl
      cases hm : importMatchAt (c :: cs) with
      | some pr =>
          obtain ⟨m, rest⟩ := pr
          rw [hun, hm]
          obtain ⟨h1, h2, h3, h4, h5, h6⟩ := importMatchAt_facts (c :: cs) m rest hm
          refine searchAny_of_here _ _ ?_
          rw [matchImportUse_injected m rest h1 h2 h3 h4 h5 h6]
          rfl
      | none =>
          rw [hun, hm]
          have htail : hasReactBraceImport cs = true := by
            unfold hasReactBraceImport at h
            rw [searchAny, hm] at h
            simpa using h
          exact searchAny_cons_of_tail _ c _ (ih htail)

/-! # Claim C10: the use-import edit applies to hook-pattern files -/

/-- C10: for a file that is not already migrated, carries the React
module marker, has a braced React import lacking a word-bounded `use`,
and is classified HookPattern, the migration runs the hook edits on the
use-injected text — the import edit of step 1 applies to hook-pattern
files as well — and the injected text's React import does import `use`. -/
theorem hookImportInjection (t : List Char)
    (hnm : alreadyMigratedB t = false)
    (hrm : reactMarker t = true)
    (hni : hasUseImport t = false)
    (hbi : hasReactBraceImport t = true)
    (hcl : classify t = FileVariant.hookPattern) :
    (migrateL t).1 = hookEdits (detectParamName t) (injectSub t) ∧
      hasUseImport (injectSub t) = true := by
  have hstep : step1Text t = injectSub t := by
    unfold step1Text
    simp [hrm, hni]
  have hprop : usesParamsProp (step1Text t) = false := by
    cases hp : usesParamsProp (step1Text t) with
    | false => rfl
    | true =>
        unfold classify at hcl
        simp [hnm, hp] at hcl
  have hhook : containsL (step1Text t) useParamsCallLit = true := by
    cases hh : containsL (step1Text t) useParamsCallLit with
    | true => rfl
    | false =>
        unfold classify at hcl
        simp [hnm, hprop, hh] at hcl
  refine ⟨?_, hasUseImport_injectSub t hbi⟩
  rw [hstep] at hprop hhook
  simp [migrateL, hnm, hprop, hhook, hstep]

set_option maxRecDepth 100000 in
/-- Witness for C10 on a hook-pattern page importing `useState` from
React. -/
theorem hookImportInjectionWitness :
    (migrateL "import \x7b useState \x7d from \"react\";\nconst params = useParams();\nexport default function P() \x7b\n  return 1;\n\x7d\n".data).1 =
        hookEdits
          (detectParamName "import \x7b useState \x7d from \"react\";\nconst params = useParams();\nexport default function P() \x7b\n  return 1;\n\x7d\n".data)
          (injectSub "import \x7b useState \x7d from \"react\";\nconst params = useParams();\nexport default function P() \x7b\n  return 1;\n\x7d\n".data) ∧
      hasUseImport
          (injectSub "import \x7b useState \x7d from \"react\";\nconst params = useParams();\nexport default function P() \x7b\n  return 1;\n\x7d\n".data) =
        true :=
  hookImportInjection
    "import \x7b useState \x7d from \"react\";\nconst params = useParams();\nexport default function P() \x7b\n  return 1;\n\x7d\n".data
    (by decide) (by decide) (by decide) (by decide) (by decide)
